import Mathlib

/-!
Shallow embedding of `src/index.js` of react-vanilla-form.

The source is a React component whose core logic is pure: lens-based
reads/writes into nested plain-JS objects (Ramda `view`/`set`/`lensPath`/
`assoc`), per-field validation on change (`handleChange`), a recursive
full-tree validator over the element tree (`validateTree`), and three
state transitions (`componentWillMount`, `componentWillReceiveProps`,
`handleSubmit`).  We embed the JS values manipulated by that logic and
translate each function.

Idealizations, stated once:
* JS values reaching this code are strings, `null`, `undefined`, plain
  objects, validator functions and arrays of validator functions.  `JVal`
  covers the data/error side; `VTree` covers the validation prop (whose
  leaves are functions, which cannot live inside `JVal`); both `viewPath`
  and `VTree.resolve` embed the same Ramda `view (lensPath path)`.
* Path keys are field names: non-numeric strings.  We therefore omit
  JS exotica (string character indexing, numeric array keys); a leaf hit
  mid-path reads as `undefined` and is replaced by a fresh object on
  write, exactly as Ramda's `path`/`assocPath` behave for such keys.
* Calling a non-function (the validation entry at a path being a plain
  object) throws a `TypeError` in JS; fallible translations return
  `Option`, with `none` for that crash.
* Rendering (`cloneTree`, `render`) and the `onChange` notification are
  host-facing side effects outside the claims; they are not embedded.
-/

/-- A plain JS value as handled by the form engine: a string leaf, `null`,
`undefined`, or an object given as an insertion-ordered key/value list
(JS object keys are unique and ordered; all values built here keep that). -/
inductive JVal where
  | str : String → JVal
  | null : JVal
  | undefined : JVal
  | obj : List (String × JVal) → JVal

/-- JS truthiness for the values of `JVal`: the empty string, `null` and
`undefined` are falsy; every object is truthy. -/
def JVal.truthy : JVal → Bool
  | .str s => s != ""
  | .null => false
  | .undefined => false
  | .obj _ => true

/-- Property lookup on an object's key/value list (keys are unique). -/
def lookupKey : List (String × JVal) → String → Option JVal
  | [], _ => none
  | (k, v) :: rest, key => if k == key then some v else lookupKey rest key

/-- Ramda `assoc` on a key/value list: update an existing key in place,
otherwise append (JS property update keeps insertion order). -/
def assocList : List (String × JVal) → String → JVal → List (String × JVal)
  | [], k, v => [(k, v)]
  | (k2, v2) :: rest, k, v =>
    if k2 == k then (k2, v) :: rest else (k2, v2) :: assocList rest k v

/-- Ramda `assoc k v t`: a fresh object that copies `t`'s properties and
binds `k` to `v`.  On a non-object receiver the copy contributes no
field-name keys (see the header note), leaving just the new binding. -/
def assoc (t : JVal) (k : String) (v : JVal) : JVal :=
  match t with
  | .obj kvs => .obj (assocList kvs k v)
  | _ => .obj [(k, v)]

/-- The intermediate node `assocPath` descends into: the existing child
when the receiver is an object that has the key, else a fresh `{}`. -/
def childAt (t : JVal) (k : String) : JVal :=
  match t with
  | .obj kvs =>
    match lookupKey kvs k with
    | some c => c
    | none => .obj []
  | _ => .obj []

/-- Ramda `set (lensPath path) v t` (= `assocPath path v t`): rebuild the
spine along `path` copy-on-write, creating missing nodes as `{}`. -/
def setPath (t : JVal) (path : List String) (v : JVal) : JVal :=
  match path with
  | [] => v
  | k :: rest => assoc t k (setPath (childAt t k) rest v)

/-- Ramda `view (lensPath path) t` (= `path path t`): descend key by key,
`undefined` as soon as a key is missing or a leaf blocks the descent. -/
def viewPath : JVal → List String → JVal
  | t, [] => t
  | .obj kvs, k :: rest =>
    match lookupKey kvs k with
    | some c => viewPath c rest
    | none => .undefined
  | _, _ :: _ => .undefined

/-- `defaultTo('')` from the source: `null`/`undefined` become `''`. -/
def defaultToEmptyString : JVal → JVal
  | .null => .str ""
  | .undefined => .str ""
  | v => v

mutual

/-- Ramda `equals` on embedded JS values: structural deep equality on
objects irrespective of key order (same key sets, pointwise equal). -/
def jsEquals : JVal → JVal → Bool
  | .str a, .str b => a == b
  | .null, .null => true
  | .undefined, .undefined => true
  | .obj a, .obj b => jsEqFields a b && b.all (fun kv => (lookupKey a kv.1).isSome)
  | _, _ => false

/-- Every field of the first object matches the second pointwise. -/
def jsEqFields : List (String × JVal) → List (String × JVal) → Bool
  | [], _ => true
  | (k, v) :: rest, b =>
    (match lookupKey b k with
     | some w => jsEquals v w
     | none => false) && jsEqFields rest b

end

/-- The `validation` prop: a tree of nested objects whose leaves are a
single validator function or an array of validator functions.  A
validator receives the input value and returns a JS value (a truthy
string on error, anything falsy otherwise). -/
inductive VTree where
  | fn : (JVal → JVal) → VTree
  | fns : List (JVal → JVal) → VTree
  | node : List (String × VTree) → VTree

/-- Property lookup in a validation-tree object. -/
def lookupV : List (String × VTree) → String → Option VTree
  | [], _ => none
  | (k, t) :: rest, key => if k == key then some t else lookupV rest key

/-- `view (lensPath path) validation`: the same traversal as `viewPath`,
on the validation prop.  `none` is JS `undefined` (key missing, or the
descent hits a function/array, which has no field-name properties). -/
def VTree.resolve : VTree → List String → Option VTree
  | t, [] => some t
  | .node kvs, k :: rest =>
    match lookupV kvs k with
    | some t => VTree.resolve t rest
    | none => none
  | .fn _, _ :: _ => none
  | .fns _, _ :: _ => none

/-- A resolved validation entry that is a leaf (function or array of
functions), as opposed to an interior object of the validation tree. -/
def VTree.isLeafEntry : VTree → Bool
  | .fn _ => true
  | .fns _ => true
  | .node _ => false

/-- Lines 92-106 of the source, shared semantics of a validator array:
apply every function to the value (`ap(validate, [value])`), drop falsy
results (`reject(complement(Boolean), _)`), and surface the first
remaining message, or `null` when none remain. -/
def validateFieldList (fs : List (JVal → JVal)) (value : JVal) : JVal :=
  match (fs.map (fun f => f value)).filter JVal.truthy with
  | [] => .null
  | e :: _ => e

/-- `this.state` of the component: the data tree and the error tree. -/
structure FormState where
  data : JVal
  errors : JVal

/-- `handleChange(path, event)` (lines 80-119): set the new value into
the data tree, resolve the validation entry at the path, and update the
error tree at that same path — first message of an array validator, the
raw result of a single function validator, the literal `null` when an
array validator finds nothing, and untouched when no entry resolves.
`none` embeds the `TypeError` thrown when the resolved entry is a plain
object (the source calls it as a function). -/
def handleChange (v : VTree) (st : FormState) (path : List String) (value : String) :
    Option FormState :=
  let data := setPath st.data path (.str value)
  match VTree.resolve v path with
  | none => some { data := data, errors := st.errors }
  | some (.fns fs) =>
    match (fs.map (fun f => f (.str value))).filter JVal.truthy with
    | e :: _ => some { data := data, errors := setPath st.errors path e }
    | [] => some { data := data, errors := setPath st.errors path JVal.null }
  | some (.fn f) =>
    let r := f (defaultToEmptyString (viewPath data path))
    some { data := data, errors := setPath st.errors path r }
  | some (.node _) => none

/-- A node of the React element tree as `validateTree` duck-types it:
a string, or an element carrying an optional `name` prop and a
`children` prop that is absent (`leaf`), a single non-array child
(`one`), or an array (`many`).  Only `is(Array, children)` matters to
`validateTree`, so other props (`role`, `htmlFor`, handlers) are not
represented.  The component instance itself, passed as the root
"element" by `componentWillMount`/`componentWillReceiveProps`/
`handleSubmit`, is an element with no `name`, so a form with array
children is `.many none cs`, with a single child `.one none c`. -/
inductive Elem where
  | text : String → Elem
  | leaf : Option String → Elem
  | one : Option String → Elem → Elem
  | many : Option String → List Elem → Elem

/-- Truthiness of the `name` prop (`element.props.name ? ... : ...`):
absent or the empty string is falsy. -/
def truthyName : Option String → Bool
  | some s => s != ""
  | none => false

/-- The `name` prop used as an object key by `assoc(element.props.name,
...)`: JS coerces an `undefined` key to the string "undefined". -/
def nameKey : Option String → String
  | some s => s
  | none => "undefined"

/-- Lines 200-241 of `validateTree`: the branch for an element that has
a truthy `name` and no array children.  Resolve the validation entry at
`parentPath ++ [name]`; no entry leaves the accumulator untouched; an
array entry files the first truthy message under the name, or nothing;
a single function files its result only when truthy.  A plain-object
entry is called as a function by the source: `TypeError`, hence `none`. -/
def validateNamed (v : VTree) (dataT : JVal) (errors : JVal) (name : Option String)
    (parentPath : List String) : Option JVal :=
  if truthyName name then
    let path := parentPath ++ [nameKey name]
    match VTree.resolve v path with
    | none => some errors
    | some entry =>
      let value := defaultToEmptyString (viewPath dataT path)
      match entry with
      | .fns fs =>
        match (fs.map (fun f => f value)).filter JVal.truthy with
        | [] => some errors
        | e :: _ => some (assoc errors (nameKey name) e)
      | .fn f =>
        let r := f value
        if r.truthy then some (assoc errors (nameKey name) r) else some errors
      | .node _ => none
  else some errors

mutual

/-- `validateTree(errors, element, parentPath)` (lines 168-244): strings
pass the accumulator through; an element with array children reduces
`validateTree` over the children from a fresh `{}` accumulator (extending
the path with its name when truthy) and, when the extended path is
non-empty, files the aggregate under `element.props.name` in `errors`,
else returns the aggregate itself; any other element is handled by
`validateNamed` when its name is truthy and is inert otherwise. -/
def validateTree (v : VTree) (dataT : JVal) (errors : JVal) :
    Elem → List String → Option JVal
  | .text _, _ => some errors
  | .leaf name, parentPath => validateNamed v dataT errors name parentPath
  | .one name _, parentPath => validateNamed v dataT errors name parentPath
  | .many name cs, parentPath =>
    let path := if truthyName name then parentPath ++ [nameKey name] else parentPath
    match validateList v dataT (.obj []) cs path with
    | none => none
    | some validated =>
      if path.length > 0 then some (assoc errors (nameKey name) validated)
      else some validated

/-- `reduce(partialRight(this.validateTree, [path]), acc, children)`;
a `TypeError` in any child aborts the whole walk. -/
def validateList (v : VTree) (dataT : JVal) (acc : JVal) :
    List Elem → List String → Option JVal
  | [], _ => some acc
  | c :: rest, path =>
    match validateTree v dataT acc c path with
    | none => none
    | some acc2 => validateList v dataT acc2 rest path

end

/-- The state built by the constructor (lines 42-45):
`{ errors: {}, data: props.data || {} }`. -/
def initialState (propsData : JVal) : FormState :=
  { data := if propsData.truthy then propsData else JVal.obj [], errors := JVal.obj [] }

/-- `componentWillMount` (lines 54-60) on top of the constructor: when
the `data` prop is truthy, replace the (empty) error state with a full
`validateTree` walk from a `{}` accumulator over the current state data. -/
def componentWillMount (v : VTree) (form : Elem) (propsData : JVal) : Option FormState :=
  let st := initialState propsData
  if propsData.truthy then
    (validateTree v st.data (JVal.obj []) form []).map (fun errs => { st with errors := errs })
  else some st

/-- `componentWillReceiveProps(nextProps)` (lines 62-69): when the
incoming `data` prop is truthy and deeply unequal (`equals`) to the
previous `data` prop, recompute errors with `validateTree` — which reads
`this.state.data`, i.e. the data from *before* the replacement — and
store the new data with those errors; otherwise the state is untouched. -/
def componentWillReceiveProps (v : VTree) (form : Elem) (propsData : JVal)
    (st : FormState) (nextData : JVal) : Option FormState :=
  if nextData.truthy && !(jsEquals nextData propsData) then
    (validateTree v st.data st.errors form []).map
      (fun errs => { data := nextData, errors := errs })
  else some st

/-- `handleSubmit(event)` (lines 246-258): recompute the error tree with
`validateTree`, seeded with the *current* `this.state.errors` as the
accumulator, store it, and call `onSubmit` with `this.state.data` (the
data unchanged by the `setState` just issued).  The second component of
the result is the argument handed to the host submit handler. -/
def handleSubmit (v : VTree) (form : Elem) (st : FormState) :
    Option (FormState × JVal) :=
  (validateTree v st.data st.errors form []).map
    (fun errs => ({ data := st.data, errors := errs }, st.data))

/-! Helper notions for comparing the incremental and the full validation
passes over a flat form: a list of `(name, typed value)` pairs, one per
field, processed left to right. -/

/-- One `handleChange` per field, in sequence (a crash aborts the rest). -/
def applyChanges (v : VTree) : Option FormState → List (String × String) → Option FormState
  | st, [] => st
  | none, _ :: _ => none
  | some st, nv :: rest => applyChanges v (handleChange v st [nv.1] nv.2) rest

/-- The element tree of a flat form: one nameless, childless input per field. -/
def fieldElems (fields : List (String × String)) : List Elem :=
  fields.map (fun nv => Elem.leaf (some nv.1))

/-- The data tree after typing every field's value in sequence. -/
def finalData (d : JVal) (fields : List (String × String)) : JVal :=
  fields.foldl (fun acc nv => setPath acc [nv.1] (JVal.str nv.2)) d

/-- The validation outcome for one field: `none` when no entry resolves
at `[n]` (and, conventionally, for an object entry, which both passes
exclude by hypothesis), the function's raw result for a single-function
entry, and first-truthy-or-`null` for an array entry. -/
def fieldResult (v : VTree) (n : String) (val : String) : Option JVal :=
  match VTree.resolve v [n] with
  | none => none
  | some (.fn f) => some (f (JVal.str val))
  | some (.fns fs) => some (validateFieldList fs (JVal.str val))
  | some (.node _) => none

/-- The error entries the incremental pass accumulates: one entry per
field with a resolvable entry, holding that field's validation outcome
(truthy or not). -/
def incErrorList (v : VTree) (fields : List (String × String)) : List (String × JVal) :=
  fields.filterMap (fun nv => (fieldResult v nv.1 nv.2).map (fun r => (nv.1, r)))

/-- The entry resolved at `[n]` is not a plain object (no `TypeError`). -/
def noBranchEntry (v : VTree) (n : String) : Bool :=
  match VTree.resolve v [n] with
  | some (.node _) => false
  | _ => true

/-- Whether `is(Array, element.props.children)` holds for an element. -/
def Elem.isArrayChildren : Elem → Bool
  | .many _ _ => true
  | _ => false

/-- The `name` prop of an element (a string has no props). -/
def Elem.nameOf : Elem → Option String
  | .text _ => none
  | .leaf n => n
  | .one n _ => n
  | .many n _ => n

/-- Concrete validator for witnesses: "required" on empty input, `null`
otherwise (the shape the component documentation prescribes). -/
def requiredV : JVal → JVal :=
  fun x =>
    match x with
    | .str "" => .str "required"
    | _ => .null

/-- Concrete validator for a counterexample: always returns the empty
string, a falsy value, i.e. it accepts every input. -/
def blankV : JVal → JVal := fun _ => JVal.str ""

/-- The three validators of the first-failure-wins example: the first
passes, the second fails with "bad", the third with "worse". -/
def firstFailDemo : List (JVal → JVal) :=
  [fun _ => JVal.null, fun _ => JVal.str "bad", fun _ => JVal.str "worse"]

/-- Concrete two-field validation spec for the flat-form witness. -/
def flatDemoV : VTree := .node [("a", .fns [requiredV]), ("b", .fn requiredV)]

/-- Concrete two-field change sequence for the flat-form witness. -/
def flatDemoFields : List (String × String) := [("a", "x"), ("b", "")]

/-! Lens lemmas. -/

lemma lookupKey_assocList_self (l : List (String × JVal)) (k : String) (v : JVal) :
    lookupKey (assocList l k v) k = some v := by
  induction l with
  | nil => simp [assocList, lookupKey]
  | cons kv rest ih =>
    obtain ⟨k2, v2⟩ := kv
    by_cases h : k2 = k
    · simp [assocList, lookupKey, h]
    · simp [assocList, lookupKey, h, ih]

lemma lookupKey_assocList_ne (l : List (String × JVal)) (k k2 : String) (v : JVal)
    (h : k2 ≠ k) : lookupKey (assocList l k v) k2 = lookupKey l k2 := by
  induction l with
  | nil => simp [assocList, lookupKey, Ne.symm h]
  | cons kv rest ih =>
    obtain ⟨k3, v3⟩ := kv
    by_cases h3 : k3 = k
    · subst h3
      simp [assocList, lookupKey, Ne.symm h]
    · by_cases h4 : k3 = k2
      · subst h4
        simp [assocList, lookupKey, h3]
      · simp [assocList, lookupKey, h3, h4, ih]

lemma assocList_fresh (l : List (String × JVal)) (k : String) (v : JVal)
    (h : k ∉ l.map Prod.fst) : assocList l k v = l ++ [(k, v)] := by
  induction l with
  | nil => simp [assocList]
  | cons kv rest ih =>
    obtain ⟨k2, v2⟩ := kv
    simp only [List.map_cons, List.mem_cons] at h
    push_neg at h
    simp [assocList, Ne.symm h.1, ih h.2]

lemma viewPath_assoc_self (t : JVal) (k : String) (v : JVal) (rest : List String) :
    viewPath (assoc t k v) (k :: rest) = viewPath v rest := by
  cases t <;> simp [assoc, viewPath, lookupKey, lookupKey_assocList_self]

lemma viewPath_assoc_ne (t : JVal) (k k2 : String) (v : JVal) (rest : List String)
    (h : k2 ≠ k) : viewPath (assoc t k v) (k2 :: rest) = viewPath t (k2 :: rest) := by
  cases t <;>
    simp [assoc, viewPath, lookupKey, lookupKey_assocList_ne _ _ _ _ h, Ne.symm h]

/-- Round trip of the path lens: reading back a freshly written non-empty
path yields the written value, whatever the previous tree looked like. -/
lemma viewPath_setPath_same (path : List String) (t v : JVal) (h : path ≠ []) :
    viewPath (setPath t path v) path = v := by
  induction path generalizing t with
  | nil => exact absurd rfl h
  | cons k rest ih =>
    rw [setPath, viewPath_assoc_self]
    cases rest with
    | nil => rw [setPath, viewPath]
    | cons k2 r2 => exact ih _ (by simp)

lemma setPath_single (t : JVal) (n : String) (v : JVal) :
    setPath t [n] v = assoc t n v := by
  rw [setPath, setPath]

/-! Characterization of the incremental pass over a flat form. -/

lemma applyChanges_run (v : VTree) (fields : List (String × String)) (d : JVal)
    (l : List (String × JVal))
    (hnb : ∀ nv ∈ fields, noBranchEntry v nv.1 = true)
    (hfresh : ∀ nv ∈ fields, nv.1 ∉ l.map Prod.fst)
    (hnodup : (fields.map Prod.fst).Nodup) :
    applyChanges v (some ⟨d, .obj l⟩) fields
      = some ⟨finalData d fields, .obj (l ++ incErrorList v fields)⟩ := by
  induction fields generalizing d l with
  | nil => simp [applyChanges, finalData, incErrorList]
  | cons nv rest ih =>
    obtain ⟨n, val⟩ := nv
    have hn : noBranchEntry v n = true := hnb _ (List.mem_cons_self _ _)
    have hfr : n ∉ l.map Prod.fst := hfresh _ (List.mem_cons_self _ _)
    have hnodup2 : (rest.map Prod.fst).Nodup := (List.nodup_cons.mp hnodup).2
    have hnmem : n ∉ rest.map Prod.fst := (List.nodup_cons.mp hnodup).1
    have hrestfresh : ∀ r nv2, nv2 ∈ rest → nv2.1 ∉ (l ++ [(n, r)]).map Prod.fst := by
      intro r nv2 hmem
      simp only [List.map_append, List.mem_append, List.map_cons, List.map_nil,
        List.mem_singleton]
      push_neg
      refine ⟨hfresh _ (List.mem_cons_of_mem _ hmem), ?_⟩
      intro he
      exact hnmem (he ▸ List.mem_map_of_mem Prod.fst hmem)
    have hdata : finalData d ((n, val) :: rest) = finalData (setPath d [n] (JVal.str val)) rest := by
      simp [finalData]
    cases hres : VTree.resolve v [n] with
    | none =>
      rw [applyChanges]
      simp only [handleChange, hres]
      rw [ih _ _ (fun nv2 h2 => hnb _ (List.mem_cons_of_mem _ h2))
        (fun nv2 h2 => hfresh _ (List.mem_cons_of_mem _ h2)) hnodup2]
      rw [hdata]
      simp [incErrorList, fieldResult, hres]
    | some entry =>
      cases entry with
      | node kvs =>
        rw [noBranchEntry, hres] at hn
        exact absurd hn (by simp)
      | fn f =>
        rw [applyChanges]
        simp only [handleChange, hres]
        rw [viewPath_setPath_same _ _ _ (by simp)]
        simp only [setPath_single (JVal.obj l), assoc]
        rw [assocList_fresh _ _ _ hfr]
        rw [ih _ _ (fun nv2 h2 => hnb _ (List.mem_cons_of_mem _ h2))
          (hrestfresh _) hnodup2]
        rw [hdata]
        simp [incErrorList, fieldResult, hres, defaultToEmptyString]
      | fns fs =>
        rw [applyChanges]
        simp only [handleChange, hres]
        cases hfil : (fs.map (fun f => f (JVal.str val))).filter JVal.truthy with
        | nil =>
          simp only [setPath_single (JVal.obj l), assoc]
          rw [assocList_fresh _ _ _ hfr]
          rw [ih _ _ (fun nv2 h2 => hnb _ (List.mem_cons_of_mem _ h2))
            (hrestfresh _) hnodup2]
          rw [hdata]
          simp [incErrorList, fieldResult, hres, validateFieldList, hfil]
        | cons e tl =>
          simp only [setPath_single (JVal.obj l), assoc]
          rw [assocList_fresh _ _ _ hfr]
          rw [ih _ _ (fun nv2 h2 => hnb _ (List.mem_cons_of_mem _ h2))
            (hrestfresh _) hnodup2]
          rw [hdata]
          simp [incErrorList, fieldResult, hres, validateFieldList, hfil]

lemma viewPath_finalData_notin (fields : List (String × String)) (d : JVal) (n : String)
    (h : n ∉ fields.map Prod.fst) :
    viewPath (finalData d fields) [n] = viewPath d [n] := by
  induction fields generalizing d with
  | nil => simp [finalData]
  | cons mv rest ih =>
    obtain ⟨m, w⟩ := mv
    simp only [List.map_cons, List.mem_cons] at h
    push_neg at h
    have hstep : finalData d ((m, w) :: rest) = finalData (setPath d [m] (JVal.str w)) rest := by
      simp [finalData]
    rw [hstep, ih _ h.2, setPath_single, viewPath_assoc_ne _ _ _ _ _ h.1]

lemma viewPath_finalData_mem (fields : List (String × String)) (d : JVal)
    (hnodup : (fields.map Prod.fst).Nodup) :
    ∀ nv ∈ fields, viewPath (finalData d fields) [nv.1] = JVal.str nv.2 := by
  induction fields generalizing d with
  | nil => simp
  | cons mv rest ih =>
    obtain ⟨m, w⟩ := mv
    intro nv hmem
    have hstep : finalData d ((m, w) :: rest) = finalData (setPath d [m] (JVal.str w)) rest := by
      simp [finalData]
    rcases List.mem_cons.mp hmem with heq | hrest
    · subst heq
      rw [hstep, viewPath_finalData_notin _ _ _ (List.nodup_cons.mp hnodup).1]
      rw [setPath_single, viewPath_assoc_self, viewPath]
    · exact hstep ▸ ih _ (List.nodup_cons.mp hnodup).2 nv hrest

/-! Characterization of the full pass over a flat form. -/

lemma validateList_flat (v : VTree) (fields : List (String × String)) (D : JVal)
    (m : List (String × JVal))
    (hne : ∀ nv ∈ fields, nv.1 ≠ "")
    (hnb : ∀ nv ∈ fields, noBranchEntry v nv.1 = true)
    (hfresh : ∀ nv ∈ fields, nv.1 ∉ m.map Prod.fst)
    (hnodup : (fields.map Prod.fst).Nodup)
    (hview : ∀ nv ∈ fields, viewPath D [nv.1] = JVal.str nv.2) :
    validateList v D (.obj m) (fieldElems fields) []
      = some (.obj (m ++ (incErrorList v fields).filter (fun kv => kv.2.truthy))) := by
  induction fields generalizing m with
  | nil => simp [fieldElems, validateList, incErrorList]
  | cons nv rest ih =>
    obtain ⟨n, val⟩ := nv
    have hn : noBranchEntry v n = true := hnb _ (List.mem_cons_self _ _)
    have hfr : n ∉ m.map Prod.fst := hfresh _ (List.mem_cons_self _ _)
    have hnodup2 : (rest.map Prod.fst).Nodup := (List.nodup_cons.mp hnodup).2
    have hnmem : n ∉ rest.map Prod.fst := (List.nodup_cons.mp hnodup).1
    have hne1 : n ≠ "" := hne _ (List.mem_cons_self _ _)
    have hv1 : viewPath D [n] = JVal.str val := hview _ (List.mem_cons_self _ _)
    have hrestfresh : ∀ r nv2, nv2 ∈ rest → nv2.1 ∉ (m ++ [(n, r)]).map Prod.fst := by
      intro r nv2 hmem
      simp only [List.map_append, List.mem_append, List.map_cons, List.map_nil,
        List.mem_singleton]
      push_neg
      refine ⟨hfresh _ (List.mem_cons_of_mem _ hmem), ?_⟩
      intro he
      exact hnmem (he ▸ List.mem_map_of_mem Prod.fst hmem)
    have hrest : ∀ nv2 ∈ rest, nv2.1 ≠ "" :=
      fun nv2 h2 => hne _ (List.mem_cons_of_mem _ h2)
    have hrestnb : ∀ nv2 ∈ rest, noBranchEntry v nv2.1 = true :=
      fun nv2 h2 => hnb _ (List.mem_cons_of_mem _ h2)
    have hrestview : ∀ nv2 ∈ rest, viewPath D [nv2.1] = JVal.str nv2.2 :=
      fun nv2 h2 => hview _ (List.mem_cons_of_mem _ h2)
    have hfresh2 : ∀ nv2 ∈ rest, nv2.1 ∉ m.map Prod.fst :=
      fun nv2 h2 => hfresh _ (List.mem_cons_of_mem _ h2)
    have hleaf : fieldElems ((n, val) :: rest) = Elem.leaf (some n) :: fieldElems rest := by
      simp [fieldElems]
    rw [hleaf, validateList, validateTree]
    cases hres : VTree.resolve v [n] with
    | none =>
      have hih := ih _ hrest hrestnb hfresh2 hnodup2 hrestview
      simp only [validateNamed, truthyName, bne_iff_ne, ne_eq, hne1, not_false_eq_true,
        if_true, nameKey, List.nil_append, hres]
      simp [hih, incErrorList, fieldResult, hres]
    | some entry =>
      cases entry with
      | node kvs =>
        rw [noBranchEntry, hres] at hn
        exact absurd hn (by simp)
      | fn f =>
        simp only [validateNamed, truthyName, bne_iff_ne, ne_eq, hne1, not_false_eq_true,
          if_true, nameKey, List.nil_append, hres, hv1, defaultToEmptyString]
        cases htr : (f (JVal.str val)).truthy with
        | false =>
          have hih := ih _ hrest hrestnb hfresh2 hnodup2 hrestview
          simp [htr, hih, incErrorList, fieldResult, hres]
        | true =>
          have hih := ih (m ++ [(n, f (JVal.str val))]) hrest hrestnb (hrestfresh _)
            hnodup2 hrestview
          simp [htr, assoc, assocList_fresh _ _ _ hfr, hih,
            incErrorList, fieldResult, hres]
      | fns fs =>
        simp only [validateNamed, truthyName, bne_iff_ne, ne_eq, hne1, not_false_eq_true,
          if_true, nameKey, List.nil_append, hres, hv1, defaultToEmptyString]
        cases hfil : (fs.map (fun f => f (JVal.str val))).filter JVal.truthy with
        | nil =>
          have hih := ih _ hrest hrestnb hfresh2 hnodup2 hrestview
          simp [hih, incErrorList, fieldResult, hres, validateFieldList, hfil, JVal.truthy]
        | cons e tl =>
          have htr : JVal.truthy e = true := by
            have hmem : e ∈ (fs.map (fun f => f (JVal.str val))).filter JVal.truthy := by
              rw [hfil]; exact List.mem_cons_self _ _
            exact (List.mem_filter.mp hmem).2
          have hih := ih (m ++ [(n, e)]) hrest hrestnb (hrestfresh _) hnodup2 hrestview
          simp [assoc, assocList_fresh _ _ _ hfr, hih,
            incErrorList, fieldResult, hres, validateFieldList, hfil, htr]

lemma resolve_append (v : VTree) (p q : List String) :
    VTree.resolve v (p ++ q) = (VTree.resolve v p).bind (fun t => VTree.resolve t q) := by
  induction p generalizing v with
  | nil => simp [VTree.resolve]
  | cons k p2 ih =>
    cases v with
    | node kvs =>
      rw [List.cons_append, VTree.resolve]
      cases hlk : lookupV kvs k with
      | none => simp [VTree.resolve, hlk]
      | some t => simp [VTree.resolve, hlk, ih]
    | fn f => simp [VTree.resolve]
    | fns fs => simp [VTree.resolve]

/-! The claims. -/

/-- C7: for every tree, every non-empty path, and every value `v`,
reading the lens-updated tree at the same path returns `v`:
`get(set(tree, path, v), path) == v`, including when intermediate nodes
along the path were missing and had to be created. -/
theorem c7_lens_roundtrip (t : JVal) (path : List String) (v : JVal) (h : path ≠ []) :
    viewPath (setPath t path v) path = v :=
  viewPath_setPath_same path t v h

theorem c7_lens_roundtrip_witness :
    (["a", "b"] : List String) ≠ []
      ∧ viewPath (setPath (JVal.obj [("x", JVal.str "1")]) ["a", "b"] (JVal.str "2"))
          ["a", "b"] = JVal.str "2" :=
  ⟨by decide, c7_lens_roundtrip (JVal.obj [("x", JVal.str "1")]) ["a", "b"] (JVal.str "2")
    (by decide)⟩

/-- C6: when no validation entry resolves at the changed path,
`handleChange` leaves the error tree completely unchanged (so it never
writes an error, null or not, at that path) while still writing the new
value into the data tree at that path. -/
theorem c6_no_validator_no_error (v : VTree) (st : FormState) (path : List String)
    (value : String) (h : VTree.resolve v path = none) :
    handleChange v st path value
      = some { data := setPath st.data path (JVal.str value), errors := st.errors } := by
  simp [handleChange, h]

theorem c6_no_validator_no_error_witness :
    VTree.resolve (.node []) ["z"] = none
      ∧ handleChange (.node []) ⟨JVal.obj [], JVal.obj [("z", JVal.str "old")]⟩ ["z"] "abc"
          = some ⟨JVal.obj [("z", JVal.str "abc")], JVal.obj [("z", JVal.str "old")]⟩ :=
  ⟨rfl, c6_no_validator_no_error (.node []) ⟨JVal.obj [], JVal.obj [("z", JVal.str "old")]⟩
    ["z"] "abc" rfl⟩

/-- C4: a validator-array entry applies every function in list order to
the value and yields the first truthy result, `null` when none is truthy
(`validateFieldList` equals first-truthy-or-null), and `handleChange`
writes exactly that outcome into the error tree at the changed path. -/
theorem c4_first_failure_wins :
    (∀ (fs : List (JVal → JVal)) (value : JVal),
      validateFieldList fs value
        = ((fs.map (fun f => f value)).find? JVal.truthy).getD JVal.null)
    ∧ (∀ (v : VTree) (st : FormState) (path : List String) (value : String)
        (fs : List (JVal → JVal)), VTree.resolve v path = some (.fns fs) →
        handleChange v st path value
          = some ⟨setPath st.data path (JVal.str value),
              setPath st.errors path (validateFieldList fs (JVal.str value))⟩) := by
  constructor
  · intro fs value
    induction fs with
    | nil => rfl
    | cons f rest ih =>
      cases hf : JVal.truthy (f value) with
      | true =>
        simp [validateFieldList, List.filter_cons, hf, List.find?_cons_of_pos _ hf]
      | false =>
        have h1 : validateFieldList (f :: rest) value = validateFieldList rest value := by
          simp [validateFieldList, List.filter_cons, hf]
        have h2 : ((f :: rest).map (fun g => g value)).find? JVal.truthy
            = (rest.map (fun g => g value)).find? JVal.truthy := by
          rw [List.map_cons, List.find?_cons_of_neg]
          simp [hf]
        rw [h1, h2, ih]
  · intro v st path value fs h
    simp only [handleChange, h]
    cases hfil : (fs.map (fun f => f (JVal.str value))).filter JVal.truthy with
    | nil => simp [validateFieldList, hfil]
    | cons e tl => simp [validateFieldList, hfil]

theorem c4_first_failure_wins_witness :
    handleChange (.node [("a", .fns firstFailDemo)]) ⟨JVal.obj [], JVal.obj []⟩ ["a"] "v"
        = some ⟨JVal.obj [("a", JVal.str "v")], JVal.obj [("a", JVal.str "bad")]⟩
      ∧ validateFieldList firstFailDemo (JVal.str "v") = JVal.str "bad" := by
  have h := c4_first_failure_wins.2 (.node [("a", .fns firstFailDemo)])
    ⟨JVal.obj [], JVal.obj []⟩ ["a"] "v" firstFailDemo rfl
  exact ⟨h.trans rfl, rfl⟩

/-- C5 counterexample: a single-function validator may accept a value with
a falsy result other than `null` (here the empty string); `handleChange`
then overwrites the prior error with that raw value, not with `null`, so
the claim "writes exactly null" fails as stated. -/
theorem c5_counterexample :
    handleChange (.node [("a", .fn blankV)])
        ⟨JVal.obj [], JVal.obj [("a", JVal.str "prior")]⟩ ["a"] "anything"
        = some ⟨JVal.obj [("a", JVal.str "anything")], JVal.obj [("a", JVal.str "")]⟩
      ∧ JVal.truthy (JVal.str "") = false
      ∧ JVal.str "" ≠ JVal.null :=
  ⟨rfl, rfl, fun h => JVal.noConfusion h⟩

/-- C5 amended: after a change that passes validation the prior error at
the path is overwritten by the validator's falsy outcome: exactly `null`
for a validator-array entry, and the function's raw return value (which
is `null` whenever the function returns `null`) for a single-function
entry. -/
theorem c5_amended_clear_error (v : VTree) (st : FormState) (path : List String)
    (value : String) (fs : List (JVal → JVal)) (f : JVal → JVal) :
    (VTree.resolve v path = some (.fns fs) →
      validateFieldList fs (JVal.str value) = JVal.null →
      handleChange v st path value
        = some ⟨setPath st.data path (JVal.str value),
            setPath st.errors path JVal.null⟩)
    ∧ (VTree.resolve v path = some (.fn f) →
      handleChange v st path value
        = some ⟨setPath st.data path (JVal.str value),
            setPath st.errors path
              (f (defaultToEmptyString
                (viewPath (setPath st.data path (JVal.str value)) path)))⟩) := by
  constructor
  · intro h hnull
    simp only [handleChange, h]
    cases hfil : (fs.map (fun g => g (JVal.str value))).filter JVal.truthy with
    | nil => rfl
    | cons e tl =>
      exfalso
      rw [validateFieldList, hfil] at hnull
      simp only [] at hnull
      have htr : JVal.truthy e = true := by
        have hmem : e ∈ (fs.map (fun g => g (JVal.str value))).filter JVal.truthy := by
          rw [hfil]; exact List.mem_cons_self _ _
        exact (List.mem_filter.mp hmem).2
      rw [hnull] at htr
      exact absurd htr (by simp [JVal.truthy])
  · intro h
    simp [handleChange, h]

theorem c5_amended_clear_error_witness :
    handleChange (.node [("a", .fns [requiredV])])
        ⟨JVal.obj [], JVal.obj [("a", JVal.str "required")]⟩ ["a"] "ok"
      = some ⟨JVal.obj [("a", JVal.str "ok")], JVal.obj [("a", JVal.null)]⟩ := by
  have h := (c5_amended_clear_error (.node [("a", .fns [requiredV])])
    ⟨JVal.obj [], JVal.obj [("a", JVal.str "required")]⟩ ["a"] "ok" [requiredV] requiredV).1
    rfl rfl
  exact h.trans rfl

/-- C8: whenever `handleSubmit` completes, it invokes the host submit
handler with the current data tree — the second component of the result
— irrespective of the freshly computed error tree (submission is never
blocked on validation failure). -/
theorem c8_submit_forwards (v : VTree) (form : Elem) (st : FormState)
    (out : FormState × JVal) (h : handleSubmit v form st = some out) :
    out.2 = st.data := by
  cases hv : validateTree v st.data st.errors form [] with
  | none => rw [handleSubmit, hv] at h; cases h
  | some errs =>
    rw [handleSubmit, hv] at h
    simp only [Option.map_some'] at h
    injection h with h2
    rw [← h2]

theorem c8_submit_forwards_witness :
    handleSubmit (.node [("name", .fn requiredV)]) (.many none [.leaf (some "name")])
        ⟨JVal.obj [("name", JVal.str "")], JVal.obj []⟩
        = some (⟨JVal.obj [("name", JVal.str "")], JVal.obj [("name", JVal.str "required")]⟩,
            JVal.obj [("name", JVal.str "")])
      ∧ ((⟨JVal.obj [("name", JVal.str "")], JVal.obj [("name", JVal.str "required")]⟩,
            JVal.obj [("name", JVal.str "")]) : FormState × JVal).2
          = (⟨JVal.obj [("name", JVal.str "")], JVal.obj []⟩ : FormState).data
      ∧ JVal.truthy (viewPath (JVal.obj [("name", JVal.str "required")]) ["name"]) = true :=
  ⟨rfl,
    c8_submit_forwards (.node [("name", .fn requiredV)]) (.many none [.leaf (some "name")])
      ⟨JVal.obj [("name", JVal.str "")], JVal.obj []⟩ _ rfl,
    rfl⟩

/-- C2 counterexample: when the form's children prop is a single element
rather than an array, `handleSubmit` returns the prior error tree
untouched — here the stale entry `a ↦ "old"` survives although a full
revalidation of the same data from an empty accumulator produces no
entry at all — so "prior per-field error entries do not survive" fails
as stated. -/
theorem c2_counterexample :
    handleSubmit (.node []) (.one none (.leaf (some "a")))
        ⟨JVal.obj [("a", JVal.str "x")], JVal.obj [("a", JVal.str "old")]⟩
      = some (⟨JVal.obj [("a", JVal.str "x")], JVal.obj [("a", JVal.str "old")]⟩,
          JVal.obj [("a", JVal.str "x")])
      ∧ validateTree (.node []) (JVal.obj [("a", JVal.str "x")]) (JVal.obj [])
          (.one none (.leaf (some "a"))) [] = some (JVal.obj []) :=
  ⟨rfl, rfl⟩

/-- C2 amended: when the form's children prop is an array — the only case
in which `validateTree` walks the fields — the error tree stored by
`handleSubmit` equals a full revalidation of the current data from an
empty accumulator, so prior per-field error entries do not survive
unless reproduced; with a single (non-array) child the prior error tree
is returned unchanged (see the counterexample). -/
theorem c2_amended_submit_revalidation (v : VTree) (d : JVal) (cs : List Elem) (e : JVal) :
    (handleSubmit v (.many none cs) ⟨d, e⟩).map (fun out => out.1.errors)
      = validateTree v d (JVal.obj []) (.many none cs) [] := by
  cases hv : validateList v d (JVal.obj []) cs [] with
  | none => simp [handleSubmit, validateTree, truthyName, hv]
  | some validated => simp [handleSubmit, validateTree, truthyName, hv]

/-- C3: the claim is right and the code wrong.  On a data-prop
replacement the source computes `validateTree` *before* `setState`
commits the new data, so the stored error tree reflects the old
`this.state.data`, not the adopted `newData`: here the new data passes
validation (a full walk over it yields no errors) yet the stored errors
keep the stale message computed from the old, empty value. -/
theorem c3_stale_data_validated :
    componentWillReceiveProps (.node [("name", .fns [requiredV])])
        (.many none [.leaf (some "name")])
        (JVal.obj [("name", JVal.str "")])
        ⟨JVal.obj [("name", JVal.str "")], JVal.obj [("name", JVal.str "required")]⟩
        (JVal.obj [("name", JVal.str "ok")])
      = some ⟨JVal.obj [("name", JVal.str "ok")], JVal.obj [("name", JVal.str "required")]⟩
      ∧ validateTree (.node [("name", .fns [requiredV])]) (JVal.obj [("name", JVal.str "ok")])
          (JVal.obj []) (.many none [.leaf (some "name")]) [] = some (JVal.obj []) :=
  ⟨rfl, rfl⟩

/-- C9 counterexample: a path that descends through a validation-tree
leaf (shape mismatch) is not failed fast: `handleChange` returns
normally, updates the data at the path, and leaves the error tree
untouched — exactly the silent treat-as-unvalidated behavior the claim
rules out, with no configuration error signalled. -/
theorem c9_counterexample :
    handleChange (.node [("a", .fn requiredV)]) ⟨JVal.obj [], JVal.obj []⟩ ["a", "b"] "x"
      = some ⟨JVal.obj [("a", JVal.obj [("b", JVal.str "x")])], JVal.obj []⟩ :=
  rfl

/-- C9 amended: when the validation tree holds a leaf entry (function or
array) at a proper prefix of the path — a list/keyed shape mismatch —
validator resolution yields `undefined` and `handleChange` silently
treats the field as unvalidated: the data is still updated at the path
and the error tree is unchanged; no configuration error is signalled. -/
theorem c9_shape_mismatch_silent (v : VTree) (p : List String) (k : String)
    (rest : List String) (st : FormState) (value : String)
    (h : (VTree.resolve v p).any VTree.isLeafEntry = true) :
    VTree.resolve v (p ++ k :: rest) = none
      ∧ handleChange v st (p ++ k :: rest) value
          = some ⟨setPath st.data (p ++ k :: rest) (JVal.str value), st.errors⟩ := by
  have hnone : VTree.resolve v (p ++ k :: rest) = none := by
    rw [resolve_append]
    cases hres : VTree.resolve v p with
    | none => rw [hres] at h; cases h
    | some t =>
      rw [hres] at h
      cases t with
      | node kvs => rw [Option.any] at h; exact absurd h (by simp [VTree.isLeafEntry])
      | fn f => simp [VTree.resolve]
      | fns fs => simp [VTree.resolve]
  exact ⟨hnone, by simp [handleChange, hnone]⟩

theorem c9_shape_mismatch_silent_witness :
    (VTree.resolve (.node [("a", .fn requiredV)]) ["a"]).any VTree.isLeafEntry = true
      ∧ VTree.resolve (.node [("a", .fn requiredV)]) (["a"] ++ ["b"]) = none
      ∧ handleChange (.node [("a", .fn requiredV)])
          ⟨JVal.obj [("x", JVal.str "s")], JVal.obj [("e", JVal.str "m")]⟩ (["a"] ++ ["b"]) "v"
          = some ⟨setPath (JVal.obj [("x", JVal.str "s")]) (["a"] ++ ["b"]) (JVal.str "v"),
              JVal.obj [("e", JVal.str "m")]⟩ := by
  have h := c9_shape_mismatch_silent (.node [("a", .fn requiredV)]) ["a"] "b" []
    ⟨JVal.obj [("x", JVal.str "s")], JVal.obj [("e", JVal.str "m")]⟩ "v" rfl
  exact ⟨rfl, h.1, h.2⟩

/-- C10: an element whose children prop is not an array and whose name is
not truthy passes the error accumulator through `validateTree`
untouched; consequently a form whose children prop is a single element
(not an array) performs no field validation at all: `handleSubmit`
returns the prior errors and forwards the data, and the initial
validation of `componentWillMount` leaves the empty error state. -/
theorem c10_single_child_inert (v : VTree) (dataT errs : JVal) (el : Elem)
    (pp : List String) (c : Elem) (st : FormState) (pd : JVal)
    (h1 : el.isArrayChildren = false) (h2 : truthyName el.nameOf = false) :
    validateTree v dataT errs el pp = some errs
      ∧ handleSubmit v (.one none c) st = some (st, st.data)
      ∧ componentWillMount v (.one none c) pd = some (initialState pd) := by
  refine ⟨?_, ?_, ?_⟩
  · cases el with
    | text s => rfl
    | leaf n =>
      rw [Elem.nameOf] at h2
      simp [validateTree, validateNamed, h2]
    | one n c2 =>
      rw [Elem.nameOf] at h2
      simp [validateTree, validateNamed, h2]
    | many n cs => rw [Elem.isArrayChildren] at h1; cases h1
  · simp [handleSubmit, validateTree, validateNamed, truthyName]
  · cases htr : pd.truthy with
    | true => simp [componentWillMount, validateTree, validateNamed, truthyName, htr,
        initialState]
    | false => simp [componentWillMount, htr]

theorem c10_single_child_inert_witness :
    validateTree (.node []) (JVal.obj []) (JVal.obj [("a", JVal.str "m")]) (.leaf none) []
        = some (JVal.obj [("a", JVal.str "m")])
      ∧ handleSubmit (.node []) (.one none (.leaf (some "a")))
          ⟨JVal.obj [("a", JVal.str "y")], JVal.obj [("a", JVal.str "m")]⟩
          = some (⟨JVal.obj [("a", JVal.str "y")], JVal.obj [("a", JVal.str "m")]⟩,
              JVal.obj [("a", JVal.str "y")])
      ∧ componentWillMount (.node []) (.one none (.leaf (some "a")))
          (JVal.obj [("q", JVal.str "1")])
          = some (initialState (JVal.obj [("q", JVal.str "1")])) := by
  have h := c10_single_child_inert (.node []) (JVal.obj []) (JVal.obj [("a", JVal.str "m")])
    (.leaf none) [] (.leaf (some "a"))
    ⟨JVal.obj [("a", JVal.str "y")], JVal.obj [("a", JVal.str "m")]⟩
    (JVal.obj [("q", JVal.str "1")]) rfl rfl
  exact ⟨h.1, h.2.1, h.2.2⟩

/-- C1 counterexample: with no prior errors, one `handleChange` on the
only field (whose array validator passes) writes an explicit `null`
entry, while a single `validateTree` call over the final data omits the
key entirely — the two error trees differ both structurally and for
Ramda `equals`. -/
theorem c1_counterexample :
    applyChanges (.node [("a", .fns [requiredV])]) (some ⟨JVal.obj [], JVal.obj []⟩)
        [("a", "x")]
        = some ⟨JVal.obj [("a", JVal.str "x")], JVal.obj [("a", JVal.null)]⟩
      ∧ validateTree (.node [("a", .fns [requiredV])]) (JVal.obj [("a", JVal.str "x")])
          (JVal.obj []) (.many none [.leaf (some "a")]) [] = some (JVal.obj [])
      ∧ jsEquals (JVal.obj [("a", JVal.null)]) (JVal.obj []) = false
      ∧ JVal.obj [("a", JVal.null)] ≠ JVal.obj [] := by
  refine ⟨rfl, rfl, rfl, ?_⟩
  intro h
  injection h with h2
  exact List.noConfusion h2

/-- C1 amended: over a flat form (array children of distinct, non-empty
named leaf fields, no object entry at those names) with no prior errors,
changing every field once and a single full `validateTree` walk over the
final data agree up to explicit nulls: the incremental pass stores one
entry per validated field holding its validation outcome, and the full
walk (whatever its seed errors `E`) stores exactly the truthy-valued
subset of those entries — so both agree at every field on whether an
error is present and on the message, but the trees are not equal in
general because passing fields get an explicit `null` entry only
incrementally. -/
theorem c1_full_vs_incremental (v : VTree) (d E : JVal) (fields : List (String × String))
    (hne : ∀ nv ∈ fields, nv.1 ≠ "")
    (hnb : ∀ nv ∈ fields, noBranchEntry v nv.1 = true)
    (hnodup : (fields.map Prod.fst).Nodup) :
    applyChanges v (some ⟨d, JVal.obj []⟩) fields
        = some ⟨finalData d fields, JVal.obj (incErrorList v fields)⟩
      ∧ validateTree v (finalData d fields) E (.many none (fieldElems fields)) []
          = some (JVal.obj ((incErrorList v fields).filter (fun kv => kv.2.truthy))) := by
  constructor
  · have h := applyChanges_run v fields d [] hnb (by simp) hnodup
    simpa using h
  · have h := validateList_flat v fields (finalData d fields) [] hne hnb (by simp) hnodup
      (viewPath_finalData_mem fields d hnodup)
    simp [validateTree, truthyName, h]

theorem c1_full_vs_incremental_witness :
    applyChanges flatDemoV (some ⟨JVal.obj [], JVal.obj []⟩) flatDemoFields
        = some ⟨JVal.obj [("a", JVal.str "x"), ("b", JVal.str "")],
            JVal.obj [("a", JVal.null), ("b", JVal.str "required")]⟩
      ∧ validateTree flatDemoV (finalData (JVal.obj []) flatDemoFields) (JVal.obj [])
          (.many none (fieldElems flatDemoFields)) []
          = some (JVal.obj [("b", JVal.str "required")]) := by
  have h := c1_full_vs_incremental flatDemoV (JVal.obj []) (JVal.obj []) flatDemoFields
    (by decide) (by decide) (by decide)
  exact ⟨h.1.trans rfl, h.2.trans rfl⟩
